import Mathlib

/-!
Shallow embedding of the ESP32-CAM streaming firmware and proofs about it.

Source files modelled:
  - firmware/src/video_udp.h   (UDP fragmentation, frame counter)
  - firmware/src/video_rtsp.h  (RTP packetization, sequence number, timestamp)
  - src/video_http.h           (chunked multipart MJPEG callback, fail counter)
  - firmware/src/video_webrtc.h (signaling state machine, binary frame push)
  - firmware/src/ctrl_udp.h, ctrl_http.h, ctrl_websocket.h (control state)

Machine integers are modelled as `Nat` with explicit `% 2 ^ w` wraps where the
C code can overflow; C `size_t` subtraction is modelled by `sub32`.
-/

namespace ESPCam

/-- Ceiling division `(a + b - 1) / b`, the idiom used throughout the firmware. -/
def cdiv (a b : Nat) : Nat := (a + b - 1) / b

/-- C unsigned 32-bit subtraction `a - b` (wrapping), as `size_t` arithmetic does. -/
def sub32 (a b : Nat) : Nat := (a + (2 ^ 32 - b % 2 ^ 32)) % 2 ^ 32

theorem sub32_eq_sub {a b : Nat} (hb : b ≤ a) (ha : a < 2 ^ 32) : sub32 a b = a - b := by
  unfold sub32
  have hb2 : b < 2 ^ 32 := lt_of_le_of_lt hb ha
  rw [Nat.mod_eq_of_lt hb2]
  have h : a + (2 ^ 32 - b) = (a - b) + 2 ^ 32 := by omega
  rw [h, Nat.add_mod_right, Nat.mod_eq_of_lt (by omega)]

/-! ## UDP video adapter (firmware/src/video_udp.h) -/

/-- `UDP_MAX_PACKET_SIZE` from video_udp.h. -/
def UDP_MAX_PACKET_SIZE : Nat := 1400

/-- The binary header prefixed to every UDP video datagram (`struct UDPVideoHeader`). -/
structure UDPVideoHeader where
  frameNumber : Nat
  packetNumber : Nat
  totalPackets : Nat
  frameSize : Nat
  payloadSize : Nat
deriving Repr, DecidableEq

/-- `totalPackets` as computed in `sendFrameUDP`: `(fb->len + 1399) / 1400`
truncated to `uint16_t`. -/
def udpTotalPackets (len : Nat) : Nat :=
  ((len + UDP_MAX_PACKET_SIZE - 1) / UDP_MAX_PACKET_SIZE) % 2 ^ 16

/-- Per-packet `payloadSize` from `sendFrameUDP`: `1400` except the last packet,
which carries `fb->len - i * 1400` (size_t subtraction truncated to `uint16_t`). -/
def udpPayloadSize (len tp i : Nat) : Nat :=
  if i = tp - 1 then sub32 len (i * UDP_MAX_PACKET_SIZE) % 2 ^ 16
  else UDP_MAX_PACKET_SIZE

/-- The headers of the datagrams emitted by `sendFrameUDP` for one frame, in send
order, given the already-incremented frame counter `fc`. -/
def udpPacketHeaders (fc len : Nat) : List UDPVideoHeader :=
  (List.range (udpTotalPackets len)).map fun i =>
    { frameNumber := fc
      packetNumber := i % 2 ^ 16
      totalPackets := udpTotalPackets len
      frameSize := len % 2 ^ 32
      payloadSize := udpPayloadSize len (udpTotalPackets len) i }

/-- `sendFrameUDP`: increments the `uint32_t` static `frameCounter`, then emits one
header per packet.  Returns the new counter and the list of packet headers in send
order. -/
def sendFrameUDP (frameCounter len : Nat) : Nat × List UDPVideoHeader :=
  ((frameCounter + 1) % 2 ^ 32, udpPacketHeaders ((frameCounter + 1) % 2 ^ 32) len)

theorem range_map_const (n c : Nat) :
    (List.range n).map (fun _ => c) = List.replicate n c := by
  induction n with
  | zero => rfl
  | succ m ih => rw [List.range_succ, List.map_append, ih, List.replicate_succ']; rfl

theorem cdiv_1400_spec (L : Nat) (h1 : 1 ≤ L) :
    L ≤ cdiv L 1400 * 1400 ∧ (cdiv L 1400 - 1) * 1400 < L ∧ 1 ≤ cdiv L 1400 := by
  have hdm := Nat.div_add_mod (L + 1400 - 1) 1400
  have hml : (L + 1400 - 1) % 1400 < 1400 := Nat.mod_lt _ (by norm_num)
  have hsm := Nat.sub_mul (cdiv L 1400) 1 1400
  unfold cdiv at *
  omega

/-- Claim C1: for a frame of length `L ≥ 1` (bounded so that the `uint16_t`
totalPackets field does not overflow, which holds for every frame an ESP32 camera
can produce), the UDP adapter emits `ceil(L/1400)` fragments, every fragment but
the last carries exactly 1400 payload bytes, the last carries
`L - (totalPackets-1)*1400`, and the payload sizes sum to `L`.  The second and
third conjuncts certify that `cdiv L 1400` is exactly `ceil (L / 1400)`. -/
theorem udp_fragmentation (L c : Nat) (h1 : 1 ≤ L) (h2 : L ≤ 1400 * 65535) :
    ((sendFrameUDP c L).2).length = cdiv L 1400
    ∧ L ≤ cdiv L 1400 * 1400
    ∧ (cdiv L 1400 - 1) * 1400 < L
    ∧ ((sendFrameUDP c L).2).map (fun h => h.payloadSize)
        = List.replicate (cdiv L 1400 - 1) 1400 ++ [L - (cdiv L 1400 - 1) * 1400]
    ∧ (((sendFrameUDP c L).2).map (fun h => h.payloadSize)).sum = L := by
  obtain ⟨hub, hlb, htp1⟩ := cdiv_1400_spec L h1
  set tp := cdiv L 1400 with htp
  have htple : tp ≤ 65535 := by
    have hd : (L + 1400 - 1) / 1400 ≤ (1400 * 65535 + 1399) / 1400 :=
      Nat.div_le_div_right (by omega)
    have he : (1400 * 65535 + 1399) / 1400 = 65535 := by norm_num
    unfold cdiv at htp
    omega
  have htpx : udpTotalPackets L = tp := by
    unfold udpTotalPackets UDP_MAX_PACKET_SIZE
    unfold cdiv at htp
    rw [← htp]
    exact Nat.mod_eq_of_lt (by omega)
  have hL32 : L < 2 ^ 32 := by omega
  have hlast : udpPayloadSize L tp (tp - 1) = L - (tp - 1) * 1400 := by
    unfold udpPayloadSize UDP_MAX_PACKET_SIZE
    rw [if_pos rfl, sub32_eq_sub (le_of_lt hlb) hL32]
    exact Nat.mod_eq_of_lt (by omega)
  have hsnd : (sendFrameUDP c L).2 = udpPacketHeaders ((c + 1) % 2 ^ 32) L := rfl
  have hmap : ((sendFrameUDP c L).2).map (fun h => h.payloadSize)
      = List.replicate (tp - 1) 1400 ++ [L - (tp - 1) * 1400] := by
    rw [hsnd]
    unfold udpPacketHeaders
    rw [htpx, List.map_map]
    have hrange : List.range tp = List.range (tp - 1) ++ [tp - 1] := by
      conv_lhs => rw [show tp = (tp - 1) + 1 by omega]
      rw [List.range_succ]
    rw [hrange, List.map_append]
    congr 1
    · rw [List.map_congr_left (fun i hi => ?_), range_map_const]
      have hilt : i < tp - 1 := List.mem_range.mp hi
      show udpPayloadSize L tp i = 1400
      unfold udpPayloadSize UDP_MAX_PACKET_SIZE
      rw [if_neg (by omega)]
    · simpa using hlast
  refine ⟨?_, hub, hlb, hmap, ?_⟩
  · rw [hsnd]
    unfold udpPacketHeaders
    rw [htpx, List.length_map, List.length_range]
  · rw [hmap, List.sum_append, List.sum_replicate, smul_eq_mul, List.sum_cons,
      List.sum_nil]
    omega

theorem udp_fragmentation_witness :
    ((sendFrameUDP 0 3000).2).length = cdiv 3000 1400
    ∧ (((sendFrameUDP 0 3000).2).map (fun h => h.payloadSize)).sum = 3000 :=
  ⟨(udp_fragmentation 3000 0 (by norm_num) (by norm_num)).1,
   (udp_fragmentation 3000 0 (by norm_num) (by norm_num)).2.2.2.2⟩

/-- Claim C8: `frameCounter` starts at 0 and is pre-incremented, so the first frame
ever sent carries `frameNumber = 1`; each subsequent frame's number is one more than
the previous (as long as the `uint32_t` counter does not wrap, i.e. for the first
`2^32 - 1` frames); a 3000-byte frame yields exactly 3 fragments with payload sizes
1400, 1400, 200, all carrying the incremented frame number. -/
theorem udp_frameNumber (c L : Nat) (hc : c + 1 < 2 ^ 32) :
    (sendFrameUDP c L).1 = c + 1
    ∧ (∀ h0 ∈ (sendFrameUDP c L).2, h0.frameNumber = c + 1)
    ∧ (sendFrameUDP 0 L).1 = 1
    ∧ ((sendFrameUDP c 3000).2).map (fun h => h.payloadSize) = [1400, 1400, 200]
    ∧ ((sendFrameUDP c 3000).2).map (fun h => h.frameNumber) = [c + 1, c + 1, c + 1] := by
  have hmc : (c + 1) % 2 ^ 32 = c + 1 := Nat.mod_eq_of_lt hc
  have h3 : udpTotalPackets 3000 = 3 := by
    unfold udpTotalPackets UDP_MAX_PACKET_SIZE
    norm_num
  refine ⟨hmc, ?_, ?_, ?_, ?_⟩
  · intro h0 hh
    simp only [sendFrameUDP, udpPacketHeaders, List.mem_map] at hh
    obtain ⟨i, _, hi⟩ := hh
    rw [← hi, hmc]
  · exact Nat.mod_eq_of_lt (by norm_num)
  · simp only [sendFrameUDP, udpPacketHeaders, h3]
    rw [List.map_map]
    simp only [List.range_succ, List.range_zero, List.map_append, List.map_cons,
      List.map_nil, Function.comp]
    norm_num [udpPayloadSize, UDP_MAX_PACKET_SIZE, sub32]
  · simp only [sendFrameUDP, udpPacketHeaders, h3]
    rw [List.map_map]
    simp only [List.range_succ, List.range_zero, List.map_append, List.map_cons,
      List.map_nil, Function.comp]
    rw [hmc]
    rfl

theorem udp_frameNumber_witness :
    (sendFrameUDP 7 5).1 = 8
    ∧ ((sendFrameUDP 7 3000).2).map (fun h => h.payloadSize) = [1400, 1400, 200] :=
  ⟨(udp_frameNumber 7 5 (by norm_num)).1,
   (udp_frameNumber 7 3000 (by norm_num)).2.2.2.1⟩

/-! ## RTSP adapter (firmware/src/video_rtsp.h)

The `RTSPServer` class keeps one `uint16_t sequenceNumber` and one
`uint32_t timestamp`.  `sendRTPPacket` stamps the current values into the RTP
header, then post-increments the sequence number and adds `90000 / 30` to the
timestamp — per packet, since the increment sits inside `sendRTPPacket`.
`handle()` overwrites `sequenceNumber` with the integer parsed after `CSeq:`
in an incoming request. -/

/-- The mutable per-session fields of `RTSPServer` relevant to the media path. -/
structure RTSPState where
  clientConnected : Bool
  sequenceNumber : Nat
  timestamp : Nat
deriving Repr, DecidableEq

/-- The on-wire fields of one RTP packet that vary between packets. -/
structure RTPPacket where
  seqNum : Nat
  ts : Nat
  payloadLen : Nat
deriving Repr, DecidableEq

/-- `RTSPServer::sendRTPPacket`: stamps `htons(sequenceNumber++)` and
`htonl(timestamp)` into the header, writes the payload, then does
`timestamp += 90000 / 30`. -/
def sendRTPPacket (s : RTSPState) (len : Nat) : RTSPState × RTPPacket :=
  ({ s with
      sequenceNumber := (s.sequenceNumber + 1) % 2 ^ 16
      timestamp := (s.timestamp + 90000 / 30) % 2 ^ 32 },
   { seqNum := s.sequenceNumber % 2 ^ 16
     ts := s.timestamp % 2 ^ 32
     payloadLen := len })

/-- The while-loop body of `RTSPServer::sendFrame`, iterated over the fragment
sizes of one frame. -/
def sendPackets (s : RTSPState) : List Nat → RTSPState × List RTPPacket
  | [] => (s, [])
  | l :: ls =>
    let r := sendRTPPacket s l
    let rest := sendPackets r.1 ls
    (rest.1, r.2 :: rest.2)

/-- Fragment sizes produced by the `while (remaining > 0)` loop in
`RTSPServer::sendFrame`: `packetSize = remaining > 1400 ? 1400 : remaining`.
`fuel` is a structural bound (`len` itself suffices since every iteration
consumes at least one byte). -/
def rtspFragmentsAux : Nat → Nat → List Nat
  | 0, _ => []
  | fuel + 1, len =>
    if len = 0 then []
    else (if len > 1400 then 1400 else len)
      :: rtspFragmentsAux fuel (len - (if len > 1400 then 1400 else len))

def rtspFragments (len : Nat) : List Nat := rtspFragmentsAux len len

/-- `RTSPServer::sendFrame`: packetizes a frame of `len` bytes when a client is
connected, otherwise does nothing. -/
def sendFrame (s : RTSPState) (len : Nat) : RTSPState × List RTPPacket :=
  if s.clientConnected then sendPackets s (rtspFragments len) else (s, [])

/-- C conversion of a `long` (from `String::toInt`) to `uint16_t`. -/
def truncU16 (v : Int) : Nat := (v % 65536).toNat

/-- The CSeq scan at the end of `RTSPServer::handle`: if a header line contains
`CSeq`, the integer after the colon is stored into `sequenceNumber`. -/
def rtspCSeq (s : RTSPState) (cseq : Option Int) : RTSPState :=
  match cseq with
  | some v => { s with sequenceNumber := truncU16 v }
  | none => s

/-- One observable event inside an RTSP session: a frame pushed on the media
path, or an incoming request whose headers may carry a CSeq value. -/
inductive RTSPEv where
  | frame (len : Nat)
  | req (cseq : Option Int)

def rtspSessionStep (s : RTSPState) : RTSPEv → RTSPState × List RTPPacket
  | .frame len => sendFrame s len
  | .req c => (rtspCSeq s c, [])

/-- A session: fold the per-event step, concatenating all RTP packets sent. -/
def runSession (s : RTSPState) : List RTSPEv → RTSPState × List RTPPacket
  | [] => (s, [])
  | e :: es =>
    let r := rtspSessionStep s e
    let rest := runSession r.1 es
    (rest.1, r.2 ++ rest.2)

theorem sendPackets_spec (frs : List Nat) : ∀ s : RTSPState,
    ((sendPackets s frs).2).map (fun p => p.ts)
        = (List.range frs.length).map (fun i => (s.timestamp + 3000 * i) % 2 ^ 32)
    ∧ ((sendPackets s frs).2).map (fun p => p.seqNum)
        = (List.range frs.length).map (fun i => (s.sequenceNumber + i) % 2 ^ 16)
    ∧ (sendPackets s frs).1.timestamp % 2 ^ 32
        = (s.timestamp + 3000 * frs.length) % 2 ^ 32
    ∧ (sendPackets s frs).1.sequenceNumber % 2 ^ 16
        = (s.sequenceNumber + frs.length) % 2 ^ 16
    ∧ (sendPackets s frs).1.clientConnected = s.clientConnected
    ∧ ((sendPackets s frs).2).map (fun p => p.payloadLen) = frs := by
  induction frs with
  | nil => intro s; refine ⟨rfl, rfl, rfl, rfl, rfl, rfl⟩
  | cons l ls ih =>
    intro s
    obtain ⟨ihts, ihseq, ihfts, ihfseq, ihconn, ihlen⟩ :=
      ih ((sendRTPPacket s l).1)
    have hstep : sendPackets s (l :: ls)
        = ((sendPackets (sendRTPPacket s l).1 ls).1,
           (sendRTPPacket s l).2 :: (sendPackets (sendRTPPacket s l).1 ls).2) := rfl
    have hts1 : (sendRTPPacket s l).1.timestamp
        = (s.timestamp + 90000 / 30) % 2 ^ 32 := rfl
    have hseq1 : (sendRTPPacket s l).1.sequenceNumber
        = (s.sequenceNumber + 1) % 2 ^ 16 := rfl
    have hconn1 : (sendRTPPacket s l).1.clientConnected = s.clientConnected := rfl
    have hts2 : (sendRTPPacket s l).2.ts = s.timestamp % 2 ^ 32 := rfl
    have hseq2 : (sendRTPPacket s l).2.seqNum = s.sequenceNumber % 2 ^ 16 := rfl
    have hlen2 : (sendRTPPacket s l).2.payloadLen = l := rfl
    rw [hstep]
    refine ⟨?_, ?_, ?_, ?_, ?_, ?_⟩
    · simp only [List.map_cons, ihts, List.length_cons, List.range_succ_eq_map,
        List.map_map, List.cons.injEq]
      constructor
      · rw [hts2]; omega
      · apply List.map_congr_left
        intro i _
        simp only [Function.comp, hts1]
        omega
    · simp only [List.map_cons, ihseq, List.length_cons, List.range_succ_eq_map,
        List.map_map, List.cons.injEq]
      constructor
      · rw [hseq2]; omega
      · apply List.map_congr_left
        intro i _
        simp only [Function.comp, hseq1]
        omega
    · rw [show ((sendPackets (sendRTPPacket s l).1 ls).1,
          (sendRTPPacket s l).2 :: (sendPackets (sendRTPPacket s l).1 ls).2).1
          = (sendPackets (sendRTPPacket s l).1 ls).1 from rfl]
      rw [ihfts]
      simp only [hts1, List.length_cons]
      omega
    · rw [show ((sendPackets (sendRTPPacket s l).1 ls).1,
          (sendRTPPacket s l).2 :: (sendPackets (sendRTPPacket s l).1 ls).2).1
          = (sendPackets (sendRTPPacket s l).1 ls).1 from rfl]
      rw [ihfseq]
      simp only [hseq1, List.length_cons]
      omega
    · rw [show ((sendPackets (sendRTPPacket s l).1 ls).1,
          (sendRTPPacket s l).2 :: (sendPackets (sendRTPPacket s l).1 ls).2).1
          = (sendPackets (sendRTPPacket s l).1 ls).1 from rfl]
      rw [ihconn, hconn1]
    · simp only [List.map_cons, ihlen, hlen2]

theorem cdiv_succ_1400 (len : Nat) (h : 1400 < len) :
    cdiv len 1400 = cdiv (len - 1400) 1400 + 1 := by
  unfold cdiv
  have h1 : len + 1400 - 1 = (len - 1400 + 1400 - 1) + 1400 := by omega
  rw [h1, Nat.add_div_right _ (by norm_num)]

theorem cdiv_one_1400 (len : Nat) (h1 : 1 ≤ len) (h2 : len ≤ 1400) :
    cdiv len 1400 = 1 := by
  have hdm := Nat.div_add_mod (len + 1400 - 1) 1400
  have hml : (len + 1400 - 1) % 1400 < 1400 := Nat.mod_lt _ (by norm_num)
  unfold cdiv
  omega

theorem rtspFragmentsAux_zero (fuel : Nat) : rtspFragmentsAux fuel 0 = [] := by
  cases fuel <;> simp [rtspFragmentsAux]

theorem rtspFragmentsAux_spec (fuel : Nat) : ∀ len, len ≤ fuel →
    (rtspFragmentsAux fuel len).length = cdiv len 1400
    ∧ (rtspFragmentsAux fuel len).sum = len := by
  induction fuel with
  | zero =>
    intro len hlen
    have : len = 0 := by omega
    subst this
    exact ⟨rfl, rfl⟩
  | succ f ih =>
    intro len hlen
    by_cases h0 : len = 0
    · subst h0
      simp [rtspFragmentsAux, cdiv]
    · by_cases hbig : len > 1400
      · have hrec := ih (len - 1400) (by omega)
        simp only [rtspFragmentsAux, if_neg h0, if_pos hbig, List.length_cons,
          List.sum_cons]
        rw [cdiv_succ_1400 len hbig]
        omega
      · simp only [rtspFragmentsAux, if_neg h0, if_neg hbig, Nat.sub_self,
          rtspFragmentsAux_zero, List.length_cons, List.length_nil,
          List.sum_cons, List.sum_nil]
        rw [cdiv_one_1400 len (by omega) (by omega)]
        omega

theorem rtspFragments_spec (len : Nat) :
    (rtspFragments len).length = cdiv len 1400 ∧ (rtspFragments len).sum = len :=
  rtspFragmentsAux_spec len len (le_refl len)

/-- Claim C4, corrected: the timestamp increment sits inside `sendRTPPacket`, so
the RTP timestamp advances by 3000 per *packet*, not per frame: the i-th packet
of a frame carries `timestamp + 3000*i`, and after a frame of `len` bytes the
session timestamp has advanced by `3000 * ceil(len/1400)` (mod 2^32), not by
3000. -/
theorem rtp_timestamp_per_packet (s : RTSPState) (len : Nat)
    (hc : s.clientConnected = true) :
    ((sendFrame s len).2).length = cdiv len 1400
    ∧ ((sendFrame s len).2).map (fun p => p.ts)
        = (List.range (cdiv len 1400)).map (fun i => (s.timestamp + 3000 * i) % 2 ^ 32)
    ∧ (sendFrame s len).1.timestamp % 2 ^ 32
        = (s.timestamp + 3000 * cdiv len 1400) % 2 ^ 32 := by
  obtain ⟨hlen, _⟩ := rtspFragments_spec len
  obtain ⟨hts, _, hfts, _, _, hplen⟩ := sendPackets_spec (rtspFragments len) s
  unfold sendFrame
  rw [if_pos hc]
  refine ⟨?_, ?_, ?_⟩
  · have := congrArg List.length hplen
    rw [List.length_map] at this
    rw [this, hlen]
  · rw [hts, hlen]
  · rw [hfts, hlen]

theorem rtp_timestamp_per_packet_witness :
    ((sendFrame ⟨true, 0, 0⟩ 3000).2).length = cdiv 3000 1400 :=
  (rtp_timestamp_per_packet ⟨true, 0, 0⟩ 3000 rfl).1

/-- Claim C4, counterexample: a connected session at timestamp 0 sends one
3000-byte frame (3 RTP packets); afterwards the timestamp is 9000, not the 3000
the claim requires for one frame boundary. -/
theorem rtp_timestamp_counterexample :
    (sendFrame ⟨true, 0, 0⟩ 3000).1.timestamp = 9000
    ∧ ((sendFrame ⟨true, 0, 0⟩ 3000).2).length = 3
    ∧ (9000 : Nat) ≠ 3000 := by decide

theorem seq_mod_inj {s0 i j : Nat} (hi : i < 2 ^ 16) (hj : j < 2 ^ 16)
    (h : (s0 + i) % 2 ^ 16 = (s0 + j) % 2 ^ 16) : i = j := by omega

/-- Claim C5, corrected: across any uninterrupted run of `sendRTPPacket` calls
(no intervening `handle()` of a request) the sequence numbers are consecutive
mod 2^16 and do not repeat for up to 2^16 packets; but `handle()` overwrites
`sequenceNumber` with the parsed `CSeq` value, so a request processed between
media packets can make sequence numbers repeat within a session (see the
counterexample). -/
theorem rtp_seq_consecutive (s : RTSPState) (frs : List Nat)
    (hn : frs.length ≤ 2 ^ 16) :
    ((sendPackets s frs).2).map (fun p => p.seqNum)
        = (List.range frs.length).map (fun i => (s.sequenceNumber + i) % 2 ^ 16)
    ∧ (((sendPackets s frs).2).map (fun p => p.seqNum)).Nodup
    ∧ (∀ s' v, (rtspCSeq s' (some v)).sequenceNumber = truncU16 v) := by
  obtain ⟨_, hseq, _, _, _, _⟩ := sendPackets_spec frs s
  refine ⟨hseq, ?_, fun s' v => rfl⟩
  rw [hseq]
  apply List.Nodup.map_on ?_ (List.nodup_range _)
  intro i hi j hj hij
  have hi2 : i < 2 ^ 16 := lt_of_lt_of_le (List.mem_range.mp hi) hn
  have hj2 : j < 2 ^ 16 := lt_of_lt_of_le (List.mem_range.mp hj) hn
  exact seq_mod_inj hi2 hj2 hij

theorem rtp_seq_consecutive_witness :
    (((sendPackets ⟨true, 0, 0⟩ [10, 20]).2).map (fun p => p.seqNum)).Nodup :=
  (rtp_seq_consecutive ⟨true, 0, 0⟩ [10, 20] (by norm_num)).2.1

/-- Claim C5, counterexample: a connected session sends a 2801-byte frame
(3 packets, sequence numbers 0,1,2), then handles a request carrying `CSeq: 1`
(which overwrites the RTP sequence counter), then sends a 100-byte frame whose
single packet reuses sequence number 1 — a repeat after only 4 packets, far from
16-bit wraparound. -/
theorem rtp_seq_repeat_counterexample :
    ((runSession ⟨true, 0, 0⟩
        [RTSPEv.frame 2801, RTSPEv.req (some 1), RTSPEv.frame 100]).2).map
      (fun p => p.seqNum) = [0, 1, 2, 1]
    ∧ ¬ ([0, 1, 2, 1] : List Nat).Nodup
    ∧ ((runSession ⟨true, 0, 0⟩
        [RTSPEv.frame 2801, RTSPEv.req (some 1), RTSPEv.frame 100]).2).length
        < 2 ^ 16 := by decide

/-! ## Control state (firmware/src/ctrl_udp.h, ctrl_http.h, ctrl_websocket.h)

All three decoders share the same `struct ControlCommand` and the same update
logic: `deserializeJson`; on success, each of the five keys that is present is
assigned to the corresponding field verbatim — the code contains no clamping of
any kind.  The ArduinoJson library (external code) is abstracted as the already
parsed message: `none` models a `DeserializationError`, `some msg` a parsed
document whose five optional fields model `containsKey`/`doc[key]`. -/

/-- `struct ControlCommand` (fields commented `// -100 to 100` and `// 0 to 100`
in the source). -/
structure ControlCommand where
  pan : Int
  tilt : Int
  zoom : Int
  led : Bool
  brightness : Int
deriving Repr, DecidableEq

/-- `static ControlCommand currentControl = {0, 0, 0, false, 50};` -/
def initControl : ControlCommand := ⟨0, 0, 0, false, 50⟩

/-- A successfully parsed control document: `some v` iff `doc.containsKey(k)`,
in which case `doc[k]` is `v`. -/
structure CtrlMsg where
  pan : Option Int
  tilt : Option Int
  zoom : Option Int
  led : Option Bool
  brightness : Option Int
deriving Repr, DecidableEq

/-- The five `if (doc.containsKey(...)) currentControl.x = doc[...]` statements
shared by all three control decoders. -/
def applyControl (s : ControlCommand) (m : CtrlMsg) : ControlCommand :=
  { pan := m.pan.getD s.pan
    tilt := m.tilt.getD s.tilt
    zoom := m.zoom.getD s.zoom
    led := m.led.getD s.led
    brightness := m.brightness.getD s.brightness }

/-- `processControlPacket` (ctrl_udp.h): on parse success applies the update and
sends a `{"status":"ok","received":true}` acknowledgment datagram (the returned
Bool); on `DeserializationError` it does nothing and sends nothing. -/
def processControlPacket (s : ControlCommand) (m : Option CtrlMsg) :
    ControlCommand × Bool :=
  match m with
  | none => (s, false)
  | some msg => (applyControl s msg, true)

/-- The `/control` POST body handler (ctrl_http.h): same update logic; it never
sends anything itself (the unconditional `request->send(200)` lives in a
different callback). -/
def controlHttpPostBody (s : ControlCommand) (m : Option CtrlMsg) :
    ControlCommand :=
  match m with
  | none => s
  | some msg => applyControl s msg

/-- The `WStype_TEXT` case of `webSocketEvent` (ctrl_websocket.h): same update
logic; acknowledgment text frame sent only on parse success. -/
def webSocketEventText (s : ControlCommand) (m : Option CtrlMsg) :
    ControlCommand × Bool :=
  match m with
  | none => (s, false)
  | some msg => (applyControl s msg, true)

/-- Claim C3 (code bug): none of the three control decoders clamps anything —
`currentControl.pan = doc["pan"]` stores the raw value.  Sending `{"pan":150}`
stores 150 (not the claimed 100) and sending `{"pan":-150}` stores -150 (not
-100), so after such an update the field lies outside its declared range
[-100,100].  The same raw assignment is used by the HTTP and WebSocket
decoders. -/
theorem control_stores_unclamped :
    (processControlPacket initControl
        (some ⟨some 150, none, none, none, none⟩)).1.pan = 150
    ∧ (processControlPacket initControl
        (some ⟨some (-150), none, none, none, none⟩)).1.pan = -150
    ∧ (controlHttpPostBody initControl
        (some ⟨some 150, none, none, none, none⟩)).pan = 150
    ∧ (webSocketEventText initControl
        (some ⟨some 150, none, none, none, none⟩)).1.pan = 150
    ∧ ¬ ((150 : Int) ≤ 100)
    ∧ ¬ ((-100 : Int) ≤ -150) := by decide

/-- Claim C10: a message that fails JSON parsing leaves the control state
unchanged and produces no acknowledgment in every decoder; on a successful
parse, each field whose key is absent keeps its previous value. -/
theorem control_parse_failure_no_change :
    (∀ s, processControlPacket s none = (s, false))
    ∧ (∀ s, controlHttpPostBody s none = s)
    ∧ (∀ s, webSocketEventText s none = (s, false))
    ∧ (∀ s m, m.pan = none → (applyControl s m).pan = s.pan)
    ∧ (∀ s m, m.tilt = none → (applyControl s m).tilt = s.tilt)
    ∧ (∀ s m, m.zoom = none → (applyControl s m).zoom = s.zoom)
    ∧ (∀ s m, m.led = none → (applyControl s m).led = s.led)
    ∧ (∀ s m, m.brightness = none → (applyControl s m).brightness = s.brightness) := by
  refine ⟨fun s => rfl, fun s => rfl, fun s => rfl, ?_, ?_, ?_, ?_, ?_⟩ <;>
    (intro s m h; simp [applyControl, h])

theorem control_parse_failure_no_change_witness :
    processControlPacket initControl none = (initControl, false)
    ∧ (applyControl initControl ⟨none, some 7, none, none, none⟩).pan
        = initControl.pan :=
  ⟨control_parse_failure_no_change.1 initControl,
   control_parse_failure_no_change.2.2.2.1 initControl
     ⟨none, some 7, none, none, none⟩ rfl⟩

/-! ## WebRTC signaling adapter (firmware/src/video_webrtc.h)

`enum WebRTCState { DISCONNECTED, SIGNALING, CONNECTED }` with statics
`webrtcState = DISCONNECTED`, `currentClient = 0`.  Parsed signaling JSON is
abstracted like the control messages: `none` is a `DeserializationError`. -/

inductive WebRTCState where
  | DISCONNECTED
  | SIGNALING
  | CONNECTED
deriving Repr, DecidableEq

/-- The two statics of video_webrtc.h. -/
structure WRState where
  webrtcState : WebRTCState
  currentClient : Nat
deriving Repr, DecidableEq

/-- A parsed signaling document: the `type` value if the key is present, and
whether a `candidate` key is present. -/
structure WRMsg where
  msgType : Option String
  hasCandidate : Bool
deriving Repr, DecidableEq

/-- Messages the adapter can emit on the WebSocket. -/
inductive WROut where
  | answer
  | iceAck
  | binFrame (len : Nat)
deriving Repr, DecidableEq

/-- `handleWebRTCMessage`: an `offer` gets a stub SDP answer, sets
`webrtcState = SIGNALING` and records the sender as `currentClient`; an
`ice-candidate` with a `candidate` key gets an `ice-ack`; everything else
(parse error, missing `type`, unknown type) is ignored. -/
def handleWebRTCMessage (num : Nat) (m : Option WRMsg) (s : WRState) :
    WRState × List WROut :=
  match m with
  | none => (s, [])
  | some msg =>
    match msg.msgType with
    | none => (s, [])
    | some t =>
      if t = "offer" then
        ({ webrtcState := WebRTCState.SIGNALING, currentClient := num },
         [WROut.answer])
      else if t = "ice-candidate" then
        (s, if msg.hasCandidate then [WROut.iceAck] else [])
      else (s, [])

/-- WebSocket events delivered to `webRTCEvent`. -/
inductive WSEvent where
  | disconnected (num : Nat)
  | connected (num : Nat)
  | text (num : Nat) (m : Option WRMsg)

/-- `webRTCEvent`: a disconnect of the current client resets the state machine;
a connect changes nothing; a text frame goes to `handleWebRTCMessage`. -/
def webRTCEvent (ev : WSEvent) (s : WRState) : WRState × List WROut :=
  match ev with
  | .disconnected num =>
    (if num = s.currentClient
      then { webrtcState := WebRTCState.DISCONNECTED, currentClient := 0 }
      else s, [])
  | .connected _ => (s, [])
  | .text num m => handleWebRTCMessage num m s

/-- Fold of `webRTCEvent` over an event sequence (the signaling side of the
adapter's lifetime), keeping only the state. -/
def runWR (s : WRState) : List WSEvent → WRState
  | [] => s
  | e :: es => runWR (webRTCEvent e s).1 es

/-- `sendWebRTCFrame`: returns immediately unless `webrtcState == CONNECTED`
and a frame is present; then pushes the raw frame as one binary message if a
client is connected. -/
def sendWebRTCFrame (s : WRState) (fb : Option Nat) (connectedClients : Nat) :
    List WROut :=
  match fb with
  | none => []
  | some len =>
    if s.webrtcState = WebRTCState.CONNECTED then
      if connectedClients > 0 then [WROut.binFrame len] else []
    else []

/-- No transition of `webRTCEvent` ever produces the `CONNECTED` state. -/
theorem webRTCEvent_not_connected (ev : WSEvent) (s : WRState)
    (h : s.webrtcState ≠ WebRTCState.CONNECTED) :
    (webRTCEvent ev s).1.webrtcState ≠ WebRTCState.CONNECTED := by
  match ev with
  | .disconnected num =>
    simp only [webRTCEvent]
    by_cases hn : num = s.currentClient
    · rw [if_pos hn]; intro hx; exact WebRTCState.noConfusion hx
    · rw [if_neg hn]; exact h
  | .connected num => exact h
  | .text num m =>
    match m with
    | none => exact h
    | some msg =>
      match hmt : msg.msgType with
      | none => simp only [webRTCEvent, handleWebRTCMessage, hmt]; exact h
      | some t =>
        simp only [webRTCEvent, handleWebRTCMessage, hmt]
        by_cases ho : t = "offer"
        · rw [if_pos ho]; intro hx; exact WebRTCState.noConfusion hx
        · rw [if_neg ho]
          by_cases hi : t = "ice-candidate"
          · rw [if_pos hi]; exact h
          · rw [if_neg hi]; exact h

/-- Claim C9, corrected: an `offer` does send a stub answer and move the state
to SIGNALING (recording the sender), and a disconnect of the current client does
revert to DISCONNECTED; but frames are pushed only in the CONNECTED state, and no
code path ever assigns CONNECTED (every state reachable from the initial
DISCONNECTED state is non-CONNECTED), so while the adapter sits in the
non-Disconnected SIGNALING state `sendWebRTCFrame` pushes nothing. -/
theorem webrtc_states :
    (∀ num s hc, webRTCEvent (WSEvent.text num (some ⟨some "offer", hc⟩)) s
        = (⟨WebRTCState.SIGNALING, num⟩, [WROut.answer]))
    ∧ (∀ s, webRTCEvent (WSEvent.disconnected s.currentClient) s
        = (⟨WebRTCState.DISCONNECTED, 0⟩, []))
    ∧ (∀ evs, (runWR ⟨WebRTCState.DISCONNECTED, 0⟩ evs).webrtcState
        ≠ WebRTCState.CONNECTED)
    ∧ (∀ evs len n, sendWebRTCFrame (runWR ⟨WebRTCState.DISCONNECTED, 0⟩ evs)
        (some len) n = [])
    ∧ (∀ s len n, sendWebRTCFrame s (some len) (n + 1)
        = if s.webrtcState = WebRTCState.CONNECTED then [WROut.binFrame len]
          else []) := by
  have hreach : ∀ evs s, s.webrtcState ≠ WebRTCState.CONNECTED →
      (runWR s evs).webrtcState ≠ WebRTCState.CONNECTED := by
    intro evs
    induction evs with
    | nil => intro s h; exact h
    | cons e es ih =>
      intro s h
      exact ih (webRTCEvent e s).1 (webRTCEvent_not_connected e s h)
  refine ⟨?_, ?_, ?_, ?_, ?_⟩
  · intro num s hc
    simp [webRTCEvent, handleWebRTCMessage]
  · intro s
    simp [webRTCEvent]
  · intro evs
    exact hreach evs ⟨WebRTCState.DISCONNECTED, 0⟩ (by intro hx; exact WebRTCState.noConfusion hx)
  · intro evs len n
    have h := hreach evs ⟨WebRTCState.DISCONNECTED, 0⟩
      (by intro hx; exact WebRTCState.noConfusion hx)
    simp [sendWebRTCFrame, h]
  · intro s len n
    by_cases h : s.webrtcState = WebRTCState.CONNECTED <;>
      simp [sendWebRTCFrame, h]

/-- Claim C9, counterexample: after an offer from client 3 the adapter is in the
non-Disconnected SIGNALING state, yet `sendWebRTCFrame` pushes no binary message
for a captured 1000-byte frame even with one connected client. -/
theorem webrtc_signaling_no_push :
    (webRTCEvent (WSEvent.text 3 (some ⟨some "offer", false⟩))
        ⟨WebRTCState.DISCONNECTED, 0⟩).1.webrtcState = WebRTCState.SIGNALING
    ∧ (webRTCEvent (WSEvent.text 3 (some ⟨some "offer", false⟩))
        ⟨WebRTCState.DISCONNECTED, 0⟩).1.webrtcState ≠ WebRTCState.DISCONNECTED
    ∧ sendWebRTCFrame
        (webRTCEvent (WSEvent.text 3 (some ⟨some "offer", false⟩))
          ⟨WebRTCState.DISCONNECTED, 0⟩).1 (some 1000) 1 = [] := by
  refine ⟨rfl, ?_, rfl⟩
  intro hx
  simp [webRTCEvent, handleWebRTCMessage] at hx

/-! ## HTTP chunked MJPEG adapter (src/video_http.h)

The `/video` chunked-response callback keeps its cross-call state in function
statics: the checked-out frame, a body offset, a header buffer with its length
and sent count, and a fail counter.  One callback invocation emits either a
header chunk or a body chunk (never both), bounded by the `maxLen` the
transport offers. -/

/-- Frame-buffer ownership events: a successful `esp_camera_fb_get`, a failed
one, and `esp_camera_fb_return`. -/
inductive FrEv where
  | acq
  | acqFail
  | rel
deriving Repr, DecidableEq

/-- Bytes of a Lean string (all characters involved are ASCII). -/
def strBytes (s : String) : List Nat := s.toList.map Char.toNat

/-- `#define BOUNDARY "123456789000000000000987654321"` -/
def BOUNDARY : String := "123456789000000000000987654321"

/-- Decimal digits of `n` as ASCII bytes, as `snprintf` `%u` renders them.
`fuel` is a structural bound; `n` recursions always suffice. -/
def decReprAux : Nat → Nat → List Nat
  | 0, _ => []
  | fuel + 1, n =>
    if n < 10 then [48 + n]
    else decReprAux fuel (n / 10) ++ [48 + n % 10]

def decRepr (n : Nat) : List Nat := decReprAux (n + 1) n

/-- The per-frame multipart header formatted into `headerBuf`:
`"\r\n--%s\r\nContent-Type: image/jpeg\r\nContent-Length: %u\r\n\r\n"`. -/
def headerBytes (len : Nat) : List Nat :=
  strBytes ("\r\n--" ++ BOUNDARY ++ "\r\n"
      ++ "Content-Type: image/jpeg" ++ "\r\n"
      ++ "Content-Length: ")
    ++ decRepr len ++ strBytes "\r\n\r\n"

/-- The six function statics of the `/video` callback. -/
structure HttpState where
  fb : Option (List Nat)
  offset : Nat
  needHeader : Bool
  failCount : Nat
  headerLen : Nat
  headerSent : Nat
deriving Repr, DecidableEq

/-- Initial values of the statics. -/
def httpInit : HttpState := ⟨none, 0, true, 0, 0, 0⟩

/-- Result of one callback invocation: new statics, bytes written into the
offered buffer, whether the `vTaskDelay(100)` cooldown ran, and the
frame-buffer events. -/
structure HttpOut where
  state : HttpState
  out : List Nat
  delayed : Bool
  evs : List FrEv
deriving Repr, DecidableEq

/-- Steps 2 and 3 of the callback (header emission, then body emission), run
when a frame is checked out. -/
def httpEmit (f : List Nat) (maxLen : Nat) (s : HttpState) : HttpOut :=
  if s.needHeader then
    let hl := if s.headerLen = 0 then (headerBytes f.length).length else s.headerLen
    if 128 ≤ hl then
      { state := { s with fb := none, headerLen := hl }, out := [],
        delayed := false, evs := [FrEv.rel] }
    else
      let chunk := min (hl - s.headerSent) maxLen
      let sent := s.headerSent + chunk
      { state := { s with
          headerLen := hl
          headerSent := sent
          needHeader := if hl ≤ sent then false else s.needHeader }
        out := ((headerBytes f.length).drop s.headerSent).take chunk
        delayed := false
        evs := [] }
  else
    if f.length - s.offset = 0 then
      { state := { s with fb := none }, out := [], delayed := false,
        evs := [FrEv.rel] }
    else
      let toSend := min (f.length - s.offset) maxLen
      let off := s.offset + toSend
      if f.length ≤ off then
        { state := { s with fb := none, offset := off },
          out := (f.drop s.offset).take toSend, delayed := false,
          evs := [FrEv.rel] }
      else
        { state := { s with offset := off },
          out := (f.drop s.offset).take toSend, delayed := false, evs := [] }

/-- One invocation of the chunked-response callback.  `cap` is what
`esp_camera_fb_get()` would return on this call (`none` = capture failure),
`maxLen` the buffer size offered by the transport. -/
def httpStep (cap : Option (List Nat)) (maxLen : Nat) (s : HttpState) : HttpOut :=
  match s.fb with
  | none =>
    match cap with
    | none =>
      if 5 < s.failCount + 1 then
        { state := { s with failCount := 0 }, out := [], delayed := true,
          evs := [FrEv.acqFail] }
      else
        { state := { s with failCount := s.failCount + 1 }, out := [],
          delayed := false, evs := [FrEv.acqFail] }
    | some f =>
      let r := httpEmit f maxLen
        { s with
          fb := some f
          failCount := 0
          offset := 0
          needHeader := true
          headerSent := 0
          headerLen := 0 }
      { r with evs := FrEv.acq :: r.evs }
  | some f => httpEmit f maxLen s

/-- Result of a sequence of callback invocations. -/
structure RunOut where
  state : HttpState
  out : List Nat
  delays : List Bool
  evs : List FrEv
deriving Repr, DecidableEq

/-- Run the callback over a list of `(capture result, maxLen)` pairs,
concatenating outputs and events and recording the per-call delay flags. -/
def httpRun (s : HttpState) : List (Option (List Nat) × Nat) → RunOut
  | [] => ⟨s, [], [], []⟩
  | (cap, ml) :: rest =>
    let o := httpStep cap ml s
    let r := httpRun o.state rest
    ⟨r.state, o.out ++ r.out, o.delayed :: r.delays, o.evs ++ r.evs⟩

theorem cdiv_pos {a b : Nat} (ha : 1 ≤ a) (hb : 1 ≤ b) : 1 ≤ cdiv a b := by
  unfold cdiv
  rw [Nat.one_le_div_iff (by omega)]
  omega

theorem cdiv_eq_one {a b : Nat} (ha : 1 ≤ a) (hab : a ≤ b) : cdiv a b = 1 := by
  have hb : 0 < b := by omega
  have h1 : 1 ≤ cdiv a b := cdiv_pos ha (by omega)
  have h2 : cdiv a b < 2 := by
    unfold cdiv
    rw [Nat.div_lt_iff_lt_mul hb]
    omega
  omega

theorem cdiv_step {a b : Nat} (h : b < a) (hb : 1 ≤ b) :
    cdiv a b = cdiv (a - b) b + 1 := by
  unfold cdiv
  have h1 : a + b - 1 = (a - b + b - 1) + b := by omega
  rw [h1, Nat.add_div_right _ (by omega)]

theorem decReprAux_len : ∀ fuel n k, n < fuel → n < 10 ^ k → 1 ≤ k →
    (decReprAux fuel n).length ≤ k := by
  intro fuel
  induction fuel with
  | zero => intro n k h _ _; omega
  | succ f ih =>
    intro n k hn hk hk1
    simp only [decReprAux]
    split
    · simpa using hk1
    · rename_i h10
      have hk2 : 2 ≤ k := by
        by_contra hcon
        have hk1' : k = 1 := by omega
        subst hk1'
        rw [pow_one] at hk
        omega
      have hdiv : n / 10 < n := Nat.div_lt_self (by omega) (by norm_num)
      have hpow : 10 ^ (k - 1) * 10 = 10 ^ k := by
        rw [← Nat.pow_succ]
        congr 1
        omega
      have hrec : (decReprAux f (n / 10)).length ≤ k - 1 := by
        apply ih
        · omega
        · rw [Nat.div_lt_iff_lt_mul (by norm_num)]
          omega
        · omega
      rw [List.length_append]
      simp only [List.length_cons, List.length_nil]
      omega

theorem decRepr_len_pos (n : Nat) : 1 ≤ (decRepr n).length := by
  unfold decRepr
  simp only [decReprAux]
  split
  · simp
  · rw [List.length_append]
    simp

theorem decRepr_len_le_ten {n : Nat} (h : n < 2 ^ 32) : (decRepr n).length ≤ 10 := by
  unfold decRepr
  apply decReprAux_len (n + 1) n 10 (by omega) ?_ (by norm_num)
  have : (2 : Nat) ^ 32 < 10 ^ 10 := by norm_num
  omega

theorem headerBytes_length (len : Nat) :
    (headerBytes len).length = 82 + (decRepr len).length := by
  have h1 : (strBytes ("\r\n--" ++ BOUNDARY ++ "\r\n"
      ++ "Content-Type: image/jpeg" ++ "\r\n"
      ++ "Content-Length: ")).length = 78 := rfl
  have h2 : (strBytes "\r\n\r\n").length = 4 := rfl
  unfold headerBytes
  rw [List.length_append, List.length_append, h1, h2]
  omega

theorem headerBytes_len_bounds {len : Nat} (h : len < 2 ^ 32) :
    83 ≤ (headerBytes len).length ∧ (headerBytes len).length < 128 := by
  have h1 := headerBytes_length len
  have h2 := decRepr_len_pos len
  have h3 := decRepr_len_le_ten h
  omega

theorem httpRun_cons (s : HttpState) (cap : Option (List Nat)) (ml : Nat)
    (rest : List (Option (List Nat) × Nat)) :
    httpRun s ((cap, ml) :: rest)
      = ⟨(httpRun (httpStep cap ml s).state rest).state,
         (httpStep cap ml s).out ++ (httpRun (httpStep cap ml s).state rest).out,
         (httpStep cap ml s).delayed :: (httpRun (httpStep cap ml s).state rest).delays,
         (httpStep cap ml s).evs ++ (httpRun (httpStep cap ml s).state rest).evs⟩ := rfl

theorem httpStep_header (f : List Nat) (B off fc hl hsent : Nat)
    (hhl : hl = 0 ∨ hl = (headerBytes f.length).length)
    (h128 : (headerBytes f.length).length < 128) :
    httpStep (some f) B ⟨some f, off, true, fc, hl, hsent⟩
      = ⟨⟨some f, off,
          (if (headerBytes f.length).length
              ≤ hsent + min ((headerBytes f.length).length - hsent) B
            then false else true),
          fc, (headerBytes f.length).length,
          hsent + min ((headerBytes f.length).length - hsent) B⟩,
         ((headerBytes f.length).drop hsent).take
           (min ((headerBytes f.length).length - hsent) B),
         false, []⟩ := by
  rcases hhl with h | h <;> subst h <;>
    simp only [httpStep, httpEmit, if_true, ite_self, if_pos rfl] <;>
    rw [if_neg (by omega)]

theorem httpStep_body (f : List Nat) (B off fc hl hsent : Nat)
    (hoff : off < f.length) :
    httpStep (some f) B ⟨some f, off, false, fc, hl, hsent⟩
      = if f.length ≤ off + min (f.length - off) B then
          ⟨⟨none, off + min (f.length - off) B, false, fc, hl, hsent⟩,
           (f.drop off).take (min (f.length - off) B), false, [FrEv.rel]⟩
        else
          ⟨⟨some f, off + min (f.length - off) B, false, fc, hl, hsent⟩,
           (f.drop off).take (min (f.length - off) B), false, []⟩ := by
  by_cases h : f.length ≤ off + min (f.length - off) B
  · rw [if_pos h]
    simp only [httpStep, httpEmit, Bool.false_eq_true, if_false]
    rw [if_neg (by omega), if_pos h]
  · rw [if_neg h]
    simp only [httpStep, httpEmit, Bool.false_eq_true, if_false]
    rw [if_neg (by omega), if_neg h]

theorem httpStep_fail (B : Nat) (off fc hl hsent : Nat) (nh : Bool) :
    httpStep none B ⟨none, off, nh, fc, hl, hsent⟩
      = if 5 < fc + 1 then ⟨⟨none, off, nh, 0, hl, hsent⟩, [], true, [FrEv.acqFail]⟩
        else ⟨⟨none, off, nh, fc + 1, hl, hsent⟩, [], false, [FrEv.acqFail]⟩ := by
  by_cases h : 5 < fc + 1
  · rw [if_pos h]
    simp only [httpStep]
    rw [if_pos h]
  · rw [if_neg h]
    simp only [httpStep]
    rw [if_neg h]

theorem httpStep_acquire (f : List Nat) (B off fc hl hsent : Nat) (nh : Bool) :
    httpStep (some f) B ⟨none, off, nh, fc, hl, hsent⟩
      = { httpStep (some f) B ⟨some f, 0, true, 0, 0, 0⟩ with
          evs := FrEv.acq :: (httpStep (some f) B ⟨some f, 0, true, 0, 0, 0⟩).evs } := rfl

theorem http_header_drain (B : Nat) (hB : 1 ≤ B) (f : List Nat)
    (h128 : (headerBytes f.length).length < 128) :
    ∀ n rem off fc hl hsent,
      (hl = 0 ∨ hl = (headerBytes f.length).length) →
      hsent + rem = (headerBytes f.length).length →
      1 ≤ rem →
      cdiv rem B = n →
      httpRun ⟨some f, off, true, fc, hl, hsent⟩
          (List.replicate n ((some f : Option (List Nat)), B))
        = ⟨⟨some f, off, false, fc, (headerBytes f.length).length,
            (headerBytes f.length).length⟩,
           (headerBytes f.length).drop hsent, List.replicate n false, []⟩ := by
  intro n
  induction n with
  | zero =>
    intro rem off fc hl hsent hhl hsum hrem hcd
    have := cdiv_pos hrem hB
    omega
  | succ m ih =>
    intro rem off fc hl hsent hhl hsum hrem hcd
    rw [List.replicate_succ, httpRun_cons, httpStep_header f B off fc hl hsent hhl h128]
    have hHs : (headerBytes f.length).length - hsent = rem := by omega
    rw [hHs]
    by_cases hle : rem ≤ B
    · have hmin : min rem B = rem := min_eq_left hle
      rw [hmin]
      have hcond : (headerBytes f.length).length ≤ hsent + rem := by omega
      rw [if_pos hcond]
      have hm0 : m = 0 := by
        have := cdiv_eq_one hrem hle
        omega
      subst hm0
      have htake : ((headerBytes f.length).drop hsent).take rem
          = (headerBytes f.length).drop hsent := by
        apply List.take_of_length_le
        rw [List.length_drop]
        omega
      have hsum2 : hsent + rem = (headerBytes f.length).length := by omega
      rw [hsum2, htake]
      simp [httpRun]
    · have hmin : min rem B = B := min_eq_right (by omega)
      rw [hmin]
      have hcond : ¬ ((headerBytes f.length).length ≤ hsent + B) := by omega
      rw [if_neg hcond]
      have hcd2 : cdiv (rem - B) B = m := by
        have := cdiv_step (show B < rem by omega) hB
        omega
      have hrec := ih (rem - B) off fc (headerBytes f.length).length (hsent + B)
        (Or.inr rfl) (by omega) (by omega) hcd2
      rw [hrec]
      have hout : ((headerBytes f.length).drop hsent).take B
            ++ (headerBytes f.length).drop (hsent + B)
          = (headerBytes f.length).drop hsent := by
        have hdd : (headerBytes f.length).drop (hsent + B)
            = ((headerBytes f.length).drop hsent).drop B := by
          rw [List.drop_drop, Nat.add_comm]
        rw [hdd, List.take_append_drop]
      rw [hout]
      simp [List.replicate_succ]

theorem http_body_drain (B : Nat) (hB : 1 ≤ B) (f : List Nat) :
    ∀ n rem off fc hl hsent,
      off + rem = f.length →
      1 ≤ rem →
      cdiv rem B = n →
      httpRun ⟨some f, off, false, fc, hl, hsent⟩
          (List.replicate n ((some f : Option (List Nat)), B))
        = ⟨⟨none, f.length, false, fc, hl, hsent⟩, f.drop off,
           List.replicate n false, [FrEv.rel]⟩ := by
  intro n
  induction n with
  | zero =>
    intro rem off fc hl hsent hsum hrem hcd
    have := cdiv_pos hrem hB
    omega
  | succ m ih =>
    intro rem off fc hl hsent hsum hrem hcd
    rw [List.replicate_succ, httpRun_cons, httpStep_body f B off fc hl hsent (by omega)]
    have hfo : f.length - off = rem := by omega
    rw [hfo]
    by_cases hle : rem ≤ B
    · have hmin : min rem B = rem := min_eq_left hle
      rw [hmin]
      have hcond : f.length ≤ off + rem := by omega
      rw [if_pos hcond]
      have hm0 : m = 0 := by
        have := cdiv_eq_one hrem hle
        omega
      subst hm0
      have htake : (f.drop off).take rem = f.drop off := by
        apply List.take_of_length_le
        rw [List.length_drop]
        omega
      have hsum2 : off + rem = f.length := by omega
      rw [hsum2, htake]
      simp [httpRun]
    · have hmin : min rem B = B := min_eq_right (by omega)
      rw [hmin]
      have hcond : ¬ (f.length ≤ off + B) := by omega
      rw [if_neg hcond]
      have hcd2 : cdiv (rem - B) B = m := by
        have := cdiv_step (show B < rem by omega) hB
        omega
      have hrec := ih (rem - B) (off + B) fc hl hsent (by omega) (by omega) hcd2
      rw [hrec]
      have hout : (f.drop off).take B ++ f.drop (off + B) = f.drop off := by
        have hdd : f.drop (off + B) = (f.drop off).drop B := by
          rw [List.drop_drop, Nat.add_comm]
        rw [hdd, List.take_append_drop]
      rw [hout]
      simp [List.replicate_succ]

theorem httpRun_acquire (f : List Nat) (B off fc hl hsent : Nat) (nh : Bool)
    (rest : List (Option (List Nat) × Nat)) :
    httpRun ⟨none, off, nh, fc, hl, hsent⟩ (((some f : Option (List Nat)), B) :: rest)
      = { httpRun ⟨some f, 0, true, 0, 0, 0⟩ (((some f : Option (List Nat)), B) :: rest) with
          evs := FrEv.acq
            :: (httpRun ⟨some f, 0, true, 0, 0, 0⟩
                (((some f : Option (List Nat)), B) :: rest)).evs } := by
  rw [httpRun_cons, httpRun_cons, httpStep_acquire]
  simp [List.cons_append]

theorem httpRun_append : ∀ (a b : List (Option (List Nat) × Nat)) (s : HttpState),
    httpRun s (a ++ b)
      = ⟨(httpRun (httpRun s a).state b).state,
         (httpRun s a).out ++ (httpRun (httpRun s a).state b).out,
         (httpRun s a).delays ++ (httpRun (httpRun s a).state b).delays,
         (httpRun s a).evs ++ (httpRun (httpRun s a).state b).evs⟩ := by
  intro a
  induction a with
  | nil => intro b s; simp [httpRun]
  | cons hd tl ih =>
    intro b s
    obtain ⟨cap, ml⟩ := hd
    rw [List.cons_append, httpRun_cons, httpRun_cons, ih]
    simp [List.append_assoc]

/-- Claim C2, amended: for every frame and every chunk-buffer size `B ≥ 1`, the
sequence of callback invocations needed for one frame (`ceil(H/B)` header calls
then `ceil(L/B)` body calls, the first call also acquiring the frame) emits
exactly `header_bytes + L` bytes whose concatenation is the byte-exact header
followed by the frame body — the same byte string for every `B` — and the frame
is released at the end.  (The claim's literal "single call with
B = header_bytes+L" emits only the header: one invocation never emits header
and body together; see the counterexample.)  The `f.length < 2^32` bound is the
C `size_t` range of `fb->len`, which also keeps the formatted header below the
128-byte `headerBuf`. -/
theorem http_chunked_total_bytes (f : List Nat) (B : Nat) (hB : 1 ≤ B)
    (hL : 1 ≤ f.length) (hL32 : f.length < 2 ^ 32) :
    (httpRun httpInit
        (List.replicate (cdiv (headerBytes f.length).length B + cdiv f.length B)
          ((some f : Option (List Nat)), B))).out
      = headerBytes f.length ++ f
    ∧ (httpRun httpInit
        (List.replicate (cdiv (headerBytes f.length).length B + cdiv f.length B)
          ((some f : Option (List Nat)), B))).out.length
      = (headerBytes f.length).length + f.length
    ∧ (httpRun httpInit
        (List.replicate (cdiv (headerBytes f.length).length B + cdiv f.length B)
          ((some f : Option (List Nat)), B))).state.fb = none
    ∧ (httpRun httpInit
        (List.replicate (cdiv (headerBytes f.length).length B + cdiv f.length B)
          ((some f : Option (List Nat)), B))).evs = [FrEv.acq, FrEv.rel] := by
  obtain ⟨hge, h128⟩ := headerBytes_len_bounds hL32
  have hN1 : 1 ≤ cdiv (headerBytes f.length).length B := cdiv_pos (by omega) hB
  obtain ⟨m, hm⟩ := Nat.exists_eq_add_of_le hN1
  have hm' : cdiv (headerBytes f.length).length B = m + 1 := by omega
  have hrun1 : httpRun httpInit
      (List.replicate (cdiv (headerBytes f.length).length B)
        ((some f : Option (List Nat)), B))
      = ⟨⟨some f, 0, false, 0, (headerBytes f.length).length,
          (headerBytes f.length).length⟩,
         headerBytes f.length,
         List.replicate (cdiv (headerBytes f.length).length B) false,
         [FrEv.acq]⟩ := by
    rw [hm', List.replicate_succ,
      show httpInit = (⟨none, 0, true, 0, 0, 0⟩ : HttpState) from rfl,
      httpRun_acquire, ← List.replicate_succ, ← hm',
      http_header_drain B hB f h128 (cdiv (headerBytes f.length).length B)
        (headerBytes f.length).length 0 0 0 0 (Or.inl rfl) (by omega) (by omega) rfl]
    simp [List.drop_zero]
  have hrun2 : httpRun
      (⟨some f, 0, false, 0, (headerBytes f.length).length,
        (headerBytes f.length).length⟩ : HttpState)
      (List.replicate (cdiv f.length B) ((some f : Option (List Nat)), B))
      = ⟨⟨none, f.length, false, 0, (headerBytes f.length).length,
          (headerBytes f.length).length⟩,
         f, List.replicate (cdiv f.length B) false, [FrEv.rel]⟩ := by
    have h := http_body_drain B hB f (cdiv f.length B) f.length 0 0
      (headerBytes f.length).length (headerBytes f.length).length
      (by omega) (by omega) rfl
    rw [h]
    simp [List.drop_zero]
  have hrun : httpRun httpInit
      (List.replicate (cdiv (headerBytes f.length).length B + cdiv f.length B)
        ((some f : Option (List Nat)), B))
      = ⟨⟨none, f.length, false, 0, (headerBytes f.length).length,
          (headerBytes f.length).length⟩,
         headerBytes f.length ++ f,
         List.replicate (cdiv (headerBytes f.length).length B + cdiv f.length B) false,
         [FrEv.acq, FrEv.rel]⟩ := by
    rw [List.replicate_add, httpRun_append, hrun1]
    simp only [hrun2, List.replicate_add]
    rfl
  rw [hrun]
  refine ⟨rfl, ?_, rfl, rfl⟩
  rw [List.length_append]

theorem http_chunked_total_bytes_witness :
    (httpRun httpInit
        (List.replicate
          (cdiv (headerBytes ([65, 66] : List Nat).length).length 40
            + cdiv ([65, 66] : List Nat).length 40)
          ((some [65, 66] : Option (List Nat)), 40))).out
      = headerBytes ([65, 66] : List Nat).length ++ [65, 66] :=
  (http_chunked_total_bytes [65, 66] 40 (by norm_num) (by norm_num) (by norm_num)).1

/-- Claim C2, counterexample: for a 1-byte frame the header is 83 bytes, so
`header_bytes + L = 84`; a single callback invocation with `maxLen = 84` emits
exactly the 83-byte header and nothing of the body, so the single-call output
(83 bytes) differs from the full per-frame output (84 bytes). -/
theorem http_single_call_header_only :
    (httpStep (some [65]) 84 httpInit).out = headerBytes 1
    ∧ (httpStep (some [65]) 84 httpInit).out.length = 83
    ∧ (headerBytes 1).length + 1 = 84
    ∧ (83 : Nat) ≠ 84 := by decide

/-! ## Pump handlers and frame-buffer discipline -/

/-- `handleVideoUDP` (video_udp.h): acquire; on failure just return (the loop
continues); on success send the frame and release it. -/
def handleVideoUDP (c : Nat) (cap : Option Nat) :
    Nat × List UDPVideoHeader × List FrEv :=
  match cap with
  | none => (c, [], [FrEv.acqFail])
  | some len =>
    ((sendFrameUDP c len).1, (sendFrameUDP c len).2, [FrEv.acq, FrEv.rel])

/-- `handleVideoRTSP` (video_rtsp.h): acquire only while a client is connected;
on failure return; on success `sendFrame` then release. -/
def handleVideoRTSP (s : RTSPState) (cap : Option Nat) :
    RTSPState × List RTPPacket × List FrEv :=
  if s.clientConnected then
    match cap with
    | none => (s, [], [FrEv.acqFail])
    | some len => ((sendFrame s len).1, (sendFrame s len).2, [FrEv.acq, FrEv.rel])
  else (s, [], [])

/-- `handleVideoWebRTC` (video_webrtc.h): acquire only while not DISCONNECTED;
on failure return; on success `sendWebRTCFrame` then release. -/
def handleVideoWebRTC (s : WRState) (cap : Option Nat) (clients : Nat) :
    List WROut × List FrEv :=
  if s.webrtcState ≠ WebRTCState.DISCONNECTED then
    match cap with
    | none => ([], [FrEv.acqFail])
    | some len => (sendWebRTCFrame s (some len) clients, [FrEv.acq, FrEv.rel])
  else ([], [])

/-- Claim C6, counterexample: five consecutive capture failures from the initial
state insert no cooldown delay at all (the code delays only when the counter
exceeds 5, i.e. on the sixth consecutive failure), contradicting the claimed
"exactly one cooldown delay after the 5th consecutive failure". -/
theorem cooldown_not_after_fifth :
    (httpRun httpInit (List.replicate 5 ((none : Option (List Nat)), 64))).delays.count true = 0
    ∧ (0 : Nat) ≠ 1 := by decide

theorem http_fail_run (B : Nat) : ∀ n off fc hl hsent, ∀ nh : Bool, fc ≤ 5 →
    httpRun ⟨none, off, nh, fc, hl, hsent⟩
        (List.replicate n ((none : Option (List Nat)), B))
      = ⟨⟨none, off, nh, (fc + n) % 6, hl, hsent⟩, [],
         (List.range n).map (fun k => decide ((fc + k + 1) % 6 = 0)),
         List.replicate n FrEv.acqFail⟩ := by
  intro n
  induction n with
  | zero =>
    intro off fc hl hsent nh hfc
    have hz : (fc + 0) % 6 = fc := by omega
    rw [hz]
    rfl
  | succ m ih =>
    intro off fc hl hsent nh hfc
    rw [List.replicate_succ, httpRun_cons, httpStep_fail]
    by_cases h5 : fc = 5
    · subst h5
      rw [if_pos (by omega), ih off 0 hl hsent nh (by omega)]
      rw [show (5 + (m + 1)) % 6 = (0 + m) % 6 by omega]
      rw [List.range_succ_eq_map, List.map_cons, List.map_map]
      rw [show decide ((5 + 0 + 1) % 6 = 0) = true from rfl]
      have ht : (List.range m).map ((fun k => decide ((5 + k + 1) % 6 = 0)) ∘ Nat.succ)
          = (List.range m).map (fun k => decide ((0 + k + 1) % 6 = 0)) := by
        apply List.map_congr_left
        intro k _
        simp only [Function.comp]
        rw [decide_eq_decide]
        omega
      rw [ht, List.replicate_succ]
      rfl
    · rw [if_neg (by omega), ih off (fc + 1) hl hsent nh (by omega)]
      rw [show (fc + (m + 1)) % 6 = (fc + 1 + m) % 6 by omega]
      rw [List.range_succ_eq_map, List.map_cons, List.map_map]
      have hh : decide ((fc + 0 + 1) % 6 = 0) = false := by
        rw [decide_eq_false_iff_not]
        omega
      rw [hh]
      have ht : (List.range m).map ((fun k => decide ((fc + k + 1) % 6 = 0)) ∘ Nat.succ)
          = (List.range m).map (fun k => decide ((fc + 1 + k + 1) % 6 = 0)) := by
        apply List.map_congr_left
        intro k _
        simp only [Function.comp]
        rw [decide_eq_decide]
        omega
      rw [ht, List.replicate_succ]
      rfl

/-- Claim C6, amended: a capture failure never terminates the pump: every
failing invocation emits nothing and returns.  The consecutive-failure counter
follows `failCount = n % 6`, and exactly one cooldown delay runs after every
*6th* consecutive failure (the code tests `failCount > 5`), after which the
counter resets to 0 and acquisition resumes; no delay ever runs after only 5
consecutive failures.  In the UDP pump a capture failure likewise just returns
without sending anything. -/
theorem cooldown_after_sixth (n B : Nat) :
    (httpRun httpInit (List.replicate n ((none : Option (List Nat)), B))).delays
        = (List.range n).map (fun k => decide ((k + 1) % 6 = 0))
    ∧ (httpRun httpInit
        (List.replicate n ((none : Option (List Nat)), B))).state.failCount = n % 6
    ∧ (httpRun httpInit (List.replicate n ((none : Option (List Nat)), B))).out = []
    ∧ (httpRun httpInit (List.replicate n ((none : Option (List Nat)), B))).evs
        = List.replicate n FrEv.acqFail
    ∧ (∀ c, handleVideoUDP c none = (c, [], [FrEv.acqFail])) := by
  rw [show httpInit = (⟨none, 0, true, 0, 0, 0⟩ : HttpState) from rfl,
    http_fail_run B n 0 0 0 0 true (by omega)]
  refine ⟨?_, by show (0 + n) % 6 = n % 6; omega, rfl, rfl, fun c => rfl⟩
  apply List.map_congr_left
  intro k _
  rw [decide_eq_decide]
  omega

/-- Number of frames currently checked out in the HTTP callback state. -/
def httpPending (s : HttpState) : Nat := if s.fb.isSome then 1 else 0

theorem count_rel_cons_acq (l : List FrEv) :
    List.count FrEv.rel (FrEv.acq :: l) = List.count FrEv.rel l := by
  simp [List.count_cons]

theorem count_acq_cons_acq (l : List FrEv) :
    List.count FrEv.acq (FrEv.acq :: l) = List.count FrEv.acq l + 1 := by
  simp [List.count_cons]

theorem httpEmit_def (f : List Nat) (ml : Nat) (s : HttpState) :
    httpEmit f ml s =
      if s.needHeader then
        if 128 ≤ (if s.headerLen = 0 then (headerBytes f.length).length
            else s.headerLen) then
          { state :=
              { s with
                fb := none
                headerLen := (if s.headerLen = 0 then (headerBytes f.length).length
                  else s.headerLen) }
            out := []
            delayed := false
            evs := [FrEv.rel] }
        else
          { state := { s with
              headerLen := (if s.headerLen = 0 then (headerBytes f.length).length
                else s.headerLen)
              headerSent := s.headerSent
                + min ((if s.headerLen = 0 then (headerBytes f.length).length
                    else s.headerLen) - s.headerSent) ml
              needHeader := if (if s.headerLen = 0 then (headerBytes f.length).length
                    else s.headerLen)
                  ≤ s.headerSent
                    + min ((if s.headerLen = 0 then (headerBytes f.length).length
                        else s.headerLen) - s.headerSent) ml
                then false else s.needHeader }
            out := ((headerBytes f.length).drop s.headerSent).take
              (min ((if s.headerLen = 0 then (headerBytes f.length).length
                  else s.headerLen) - s.headerSent) ml)
            delayed := false
            evs := [] }
      else
        if f.length - s.offset = 0 then
          { state := { s with fb := none }, out := [], delayed := false,
            evs := [FrEv.rel] }
        else
          if f.length ≤ s.offset + min (f.length - s.offset) ml then
            { state :=
                { s with
                  fb := none
                  offset := s.offset + min (f.length - s.offset) ml }
              out := (f.drop s.offset).take (min (f.length - s.offset) ml)
              delayed := false
              evs := [FrEv.rel] }
          else
            { state := { s with offset := s.offset + min (f.length - s.offset) ml }
              out := (f.drop s.offset).take (min (f.length - s.offset) ml)
              delayed := false
              evs := [] } := rfl

theorem httpEmit_balance (f : List Nat) (ml : Nat) (s : HttpState)
    (hs : s.fb = some f) :
    (httpEmit f ml s).evs.count FrEv.rel + httpPending (httpEmit f ml s).state = 1
    ∧ (httpEmit f ml s).evs.count FrEv.acq = 0 := by
  rw [httpEmit_def]
  by_cases hnh : s.needHeader = true
  · rw [if_pos hnh]
    by_cases h128 : 128 ≤ (if s.headerLen = 0 then (headerBytes f.length).length
        else s.headerLen)
    · rw [if_pos h128]
      exact ⟨by simp [httpPending], rfl⟩
    · rw [if_neg h128]
      exact ⟨by simp [httpPending, hs], rfl⟩
  · rw [if_neg hnh]
    by_cases hr : f.length - s.offset = 0
    · rw [if_pos hr]
      exact ⟨by simp [httpPending], rfl⟩
    · rw [if_neg hr]
      by_cases hoff : f.length ≤ s.offset + min (f.length - s.offset) ml
      · rw [if_pos hoff]
        exact ⟨by simp [httpPending], rfl⟩
      · rw [if_neg hoff]
        exact ⟨by simp [httpPending, hs], rfl⟩

theorem httpStep_balance (cap : Option (List Nat)) (ml : Nat) (s : HttpState) :
    (httpStep cap ml s).evs.count FrEv.rel + httpPending (httpStep cap ml s).state
      = (httpStep cap ml s).evs.count FrEv.acq + httpPending s := by
  obtain ⟨fb, off, nh, fc, hl, hsent⟩ := s
  cases fb with
  | some f =>
    have hstep : httpStep cap ml ⟨some f, off, nh, fc, hl, hsent⟩
        = httpEmit f ml ⟨some f, off, nh, fc, hl, hsent⟩ := rfl
    rw [hstep]
    obtain ⟨h1, h2⟩ := httpEmit_balance f ml ⟨some f, off, nh, fc, hl, hsent⟩ rfl
    have hp : httpPending (⟨some f, off, nh, fc, hl, hsent⟩ : HttpState) = 1 := rfl
    omega
  | none =>
    cases cap with
    | none =>
      rw [httpStep_fail]
      split <;> simp [httpPending]
    | some f =>
      have hX : httpStep (some f) ml ⟨some f, 0, true, 0, 0, 0⟩
          = httpEmit f ml ⟨some f, 0, true, 0, 0, 0⟩ := rfl
      rw [httpStep_acquire, hX]
      obtain ⟨h1, h2⟩ := httpEmit_balance f ml ⟨some f, 0, true, 0, 0, 0⟩ rfl
      have hu : ({ httpEmit f ml ⟨some f, 0, true, 0, 0, 0⟩ with
          evs := FrEv.acq :: (httpEmit f ml ⟨some f, 0, true, 0, 0, 0⟩).evs }).state
          = (httpEmit f ml ⟨some f, 0, true, 0, 0, 0⟩).state := rfl
      have hv : ({ httpEmit f ml ⟨some f, 0, true, 0, 0, 0⟩ with
          evs := FrEv.acq :: (httpEmit f ml ⟨some f, 0, true, 0, 0, 0⟩).evs }).evs
          = FrEv.acq :: (httpEmit f ml ⟨some f, 0, true, 0, 0, 0⟩).evs := rfl
      rw [hu, hv, count_rel_cons_acq, count_acq_cons_acq]
      have hpend : httpPending (⟨none, off, nh, fc, hl, hsent⟩ : HttpState) = 0 := rfl
      rw [hpend]
      omega

theorem httpRun_balance : ∀ (calls : List (Option (List Nat) × Nat)) (s : HttpState),
    (httpRun s calls).evs.count FrEv.rel + httpPending (httpRun s calls).state
      = (httpRun s calls).evs.count FrEv.acq + httpPending s := by
  intro calls
  induction calls with
  | nil => intro s; rfl
  | cons hd tl ih =>
    intro s
    obtain ⟨cap, ml⟩ := hd
    rw [httpRun_cons]
    simp only [List.count_append]
    have h1 := httpStep_balance cap ml s
    have h2 := ih (httpStep cap ml s).state
    omega

/-- Claim C7: in every protocol handler, every successful acquire is matched by
exactly one release on every execution path.  For the one-shot UDP/RTSP/WebRTC
pump iterations the event list of a single invocation contains equally many
acquires and releases (at most one of each).  For the HTTP callback, whose frame
outlives single invocations, every run from the initial state over any sequence
of invocations (arbitrary capture results and buffer sizes) satisfies
`#acquire = #release + (1 if a frame is still checked out)`; since this holds
for every call sequence it holds at every prefix of a run, so releases never
outnumber acquires and at most one frame is outstanding — each acquired frame is
released exactly once before the next acquire. -/
theorem frame_release_balanced :
    (∀ c cap, ((handleVideoUDP c cap).2.2.count FrEv.rel
          = (handleVideoUDP c cap).2.2.count FrEv.acq)
        ∧ (handleVideoUDP c cap).2.2.count FrEv.acq ≤ 1)
    ∧ (∀ s cap, ((handleVideoRTSP s cap).2.2.count FrEv.rel
          = (handleVideoRTSP s cap).2.2.count FrEv.acq)
        ∧ (handleVideoRTSP s cap).2.2.count FrEv.acq ≤ 1)
    ∧ (∀ s cap n, ((handleVideoWebRTC s cap n).2.count FrEv.rel
          = (handleVideoWebRTC s cap n).2.count FrEv.acq)
        ∧ (handleVideoWebRTC s cap n).2.count FrEv.acq ≤ 1)
    ∧ (∀ calls, (httpRun httpInit calls).evs.count FrEv.acq
        = (httpRun httpInit calls).evs.count FrEv.rel
          + httpPending (httpRun httpInit calls).state)
    ∧ (∀ calls, (httpRun httpInit calls).evs.count FrEv.rel
        ≤ (httpRun httpInit calls).evs.count FrEv.acq
      ∧ (httpRun httpInit calls).evs.count FrEv.acq
        ≤ (httpRun httpInit calls).evs.count FrEv.rel + 1) := by
  have hhttp : ∀ calls, (httpRun httpInit calls).evs.count FrEv.acq
      = (httpRun httpInit calls).evs.count FrEv.rel
        + httpPending (httpRun httpInit calls).state := by
    intro calls
    have h := httpRun_balance calls httpInit
    have h0 : httpPending httpInit = 0 := rfl
    omega
  refine ⟨?_, ?_, ?_, hhttp, ?_⟩
  · intro c cap
    cases cap with
    | none => exact ⟨rfl, Nat.zero_le 1⟩
    | some len => exact ⟨rfl, Nat.le_refl 1⟩
  · intro s cap
    by_cases hc : s.clientConnected = true
    · cases cap with
      | none =>
        have h : handleVideoRTSP s none = (s, [], [FrEv.acqFail]) := by
          unfold handleVideoRTSP
          rw [if_pos hc]
        rw [h]
        exact ⟨rfl, Nat.zero_le 1⟩
      | some len =>
        have h : handleVideoRTSP s (some len)
            = ((sendFrame s len).1, (sendFrame s len).2, [FrEv.acq, FrEv.rel]) := by
          unfold handleVideoRTSP
          rw [if_pos hc]
        rw [h]
        exact ⟨rfl, Nat.le_refl 1⟩
    · have h : handleVideoRTSP s cap = (s, [], []) := by
        unfold handleVideoRTSP
        rw [if_neg hc]
      rw [h]
      exact ⟨rfl, Nat.zero_le 1⟩
  · intro s cap n
    by_cases hc : s.webrtcState ≠ WebRTCState.DISCONNECTED
    · cases cap with
      | none =>
        have h : handleVideoWebRTC s none n = ([], [FrEv.acqFail]) := by
          unfold handleVideoWebRTC
          rw [if_pos hc]
        rw [h]
        exact ⟨rfl, Nat.zero_le 1⟩
      | some len =>
        have h : handleVideoWebRTC s (some len) n
            = (sendWebRTCFrame s (some len) n, [FrEv.acq, FrEv.rel]) := by
          unfold handleVideoWebRTC
          rw [if_pos hc]
        rw [h]
        exact ⟨rfl, Nat.le_refl 1⟩
    · have h : handleVideoWebRTC s cap n = ([], []) := by
        unfold handleVideoWebRTC
        rw [if_neg hc]
      rw [h]
      exact ⟨rfl, Nat.zero_le 1⟩
  · intro calls
    have h := hhttp calls
    have hp : httpPending (httpRun httpInit calls).state ≤ 1 := by
      unfold httpPending
      split <;> omega
    omega

end ESPCam
